import Mathlib

/-!
# serverstats: the bot-side event recorder (`serverstats/plugin_bot.go`)

A shallow embedding of the event handlers of the serverstats plugin and of the
slice of the key-value store they talk to, followed by the properties of the
recorder that are proved about it.

* Discord IDs are 64-bit signed integers in the source; they are embedded as
  `Int`, with the 64-bit range stated where a result depends on it.
* `discordgo.StrID` is `strconv.FormatInt(id, 10)`; integer arguments of a
  store command are written in the same decimal form by the client.
* `time.Now().Unix()` is an input of the handlers that read the clock.
* The outcome of every store command (reply or error) is an input too: a
  handler receives `ok : Nat → Bool`, where `ok i` tells whether the `i`-th
  command it issues succeeds. A failed command leaves the store untouched.
-/

namespace Serverstats

/-! ## Decimal formatting and parsing (Go `strconv`) -/

/-- The byte `'0' + d`. -/
def digitChar (d : Nat) : Char := Char.ofNat (48 + d)

/-- The digit loop of `strconv.formatBits` in base 10: digits are produced least
significant first and written in front of what is already in the buffer `acc`.
`fuel` bounds the number of iterations; `u + 1` iterations are always enough
(`decValue_formatBits`: the digits written stand for `u`). -/
def formatBits : Nat → Nat → List Char → List Char
  | 0, _, acc => acc
  | fuel + 1, u, acc =>
    if 10 ≤ u then formatBits fuel (u / 10) (digitChar (u % 10) :: acc)
    else digitChar u :: acc

/-- `strconv.FormatInt(i, 10)`: a sign for negative numbers, then the decimal
digits of the magnitude. -/
def FormatInt (i : Int) : String :=
  if i < 0 then String.mk ('-' :: formatBits (i.natAbs + 1) i.natAbs [])
  else String.mk (formatBits (i.natAbs + 1) i.natAbs [])

/-- `discordgo.StrID`. -/
def StrID (id : Int) : String := FormatInt id

/-- The two kinds of `strconv.NumError`. -/
inductive NumError where
  | ErrSyntax
  | ErrRange
  deriving DecidableEq, Repr

/-- The loop of `strconv.ParseUint(s, 10, 64)` over the remaining characters, `n`
being the value read so far. -/
def ParseUint_loop : List Char → Nat → Except NumError Nat
  | [], n => Except.ok n
  | c :: cs, n =>
    if '0' ≤ c ∧ c ≤ '9' then
      let d := c.toNat - 48
      -- cutoff = maxUint64/10 + 1: n*10 would overflow
      if (2 ^ 64 - 1) / 10 + 1 ≤ n then Except.error NumError.ErrRange
      else
        let n1 := n * 10 + d
        -- n+d overflows
        if 2 ^ 64 ≤ n1 then Except.error NumError.ErrRange
        else ParseUint_loop cs n1
    else Except.error NumError.ErrSyntax

/-- `strconv.ParseUint(s, 10, 64)`. -/
def ParseUint (s : List Char) : Except NumError Nat :=
  match s with
  | [] => Except.error NumError.ErrSyntax
  | _ => ParseUint_loop s 0

/-- `strconv.ParseInt(s, 10, 64)`. -/
def ParseInt (s : String) : Except NumError Int :=
  match s.data with
  | [] => Except.error NumError.ErrSyntax
  | c :: cs =>
    let neg := decide (c = '-')
    let rest := if c = '+' ∨ c = '-' then cs else c :: cs
    match ParseUint rest with
    | Except.error e => Except.error e
    | Except.ok un =>
      if !neg && decide (2 ^ 63 ≤ un) then Except.error NumError.ErrRange
      else if neg && decide (2 ^ 63 < un) then Except.error NumError.ErrRange
      else Except.ok (if neg then -(un : Int) else (un : Int))

/-- `strings.Split` on the characters of a string, for a one-character separator. -/
def splitChars (sep : Char) : List Char → List (List Char)
  | [] => [[]]
  | c :: cs =>
    if c = sep then [] :: splitChars sep cs
    else
      match splitChars sep cs with
      | [] => [[c]]
      | f :: fs => (c :: f) :: fs

/-- `strings.Split(s, sep)` for a one-character separator. -/
def Split (s : String) (sep : Char) : List String :=
  (splitChars sep s.data).map String.mk

/-- The number a string of decimal digits stands for. -/
def decValue (l : List Char) : Nat :=
  l.foldl (fun n c => n * 10 + (c.toNat - 48)) 0

/-! ## The store

The handlers use three families of keys, each at one type only: integer
counters (`guild_stats_num_members:<guild>`), sets (`guild_stats_online:<guild>`,
`serverstats_active_guilds`) and sorted sets (`guild_stats_members_joined_day:<guild>`,
`guild_stats_members_left_day:<guild>`, `guild_stats_msg_channel_day:<guild>`).
The store is therefore three maps. A key that is absent reads as `none`, the
empty set or the empty sorted set. -/

/-- The store commands the handlers issue. -/
inductive Command where
  | SET (key : String) (value : Int)
  | INCR (key : String)
  | DECR (key : String)
  | SADD (key : String) (member : String)
  | SREM (key : String) (member : String)
  | ZADD (key : String) (score : Int) (member : String)
  | DEL (key : String)
  deriving DecidableEq, Repr

/-- The state of the store. A sorted set is a list of (member, score) pairs. -/
structure Store where
  counters : String → Option Int
  sets : String → Finset String
  zsets : String → List (String × Int)

/-- A store with no key. -/
def Store.empty : Store :=
  { counters := fun _ => none, sets := fun _ => ∅, zsets := fun _ => [] }

/-- ZADD on one sorted set: a member that is already present keeps a single entry,
with the new score. -/
def zadd (z : List (String × Int)) (score : Int) (member : String) : List (String × Int) :=
  (member, score) :: z.filter (fun p => p.1 ≠ member)

/-- The effect of a command that succeeds. -/
def Store.exec (s : Store) : Command → Store
  | Command.SET key value =>
    { counters := Function.update s.counters key (some value),
      sets := Function.update s.sets key ∅,
      zsets := Function.update s.zsets key [] }
  | Command.INCR key =>
    { s with counters := Function.update s.counters key (some ((s.counters key).getD 0 + 1)) }
  | Command.DECR key =>
    { s with counters := Function.update s.counters key (some ((s.counters key).getD 0 - 1)) }
  | Command.SADD key member =>
    { s with sets := Function.update s.sets key (insert member (s.sets key)) }
  | Command.SREM key member =>
    { s with sets := Function.update s.sets key ((s.sets key).erase member) }
  | Command.ZADD key score member =>
    { s with zsets := Function.update s.zsets key (zadd (s.zsets key) score member) }
  | Command.DEL key =>
    { counters := Function.update s.counters key none,
      sets := Function.update s.sets key ∅,
      zsets := Function.update s.zsets key [] }

/-- `client.Cmd(...)`: the command is executed when `ok`, and fails without effect
otherwise. The second component is the reply's `Err` (`none` is Go's `nil`). -/
def Cmd (ok : Bool) (c : Command) (client : Store) : Store × Option String :=
  if ok then (client.exec c, none) else (client, some "redis: command failed")

/-- The pipeline being flushed: the pending commands are executed in order, the
`i`-th of them succeeding when `ok i`; the replies are collected in order. -/
def execPipeline (ok : Nat → Bool) : List Command → Nat → Store → Store × List (Option String)
  | [], _, client => (client, [])
  | c :: cs, i, client =>
    let r := Cmd (ok i) c client
    let rest := execPipeline ok cs (i + 1) r.1
    (rest.1, r.2 :: rest.2)

/-- Modelled from the spec: `common.GetRedisReplies` is not part of the source file.
The pending operations are submitted together and `n` replies are read back; a
failed reply among them is the error of the whole, and the sub-operations that
succeeded stay in place. Asking for more replies than operations were submitted
is an error too. -/
def GetRedisReplies (ok : Nat → Bool) (client : Store) (pending : List Command) (n : Nat) :
    Store × Option String :=
  let r := execPipeline ok pending 0 client
  let replies := r.2.take n
  match replies.find? Option.isSome with
  | some e => (r.1, e)
  | none => if replies.length < n then (r.1, some "redis: pipeline queue empty") else (r.1, none)

/-! ## Events -/

/-- `discordgo.User`, the ID only. -/
structure User where
  ID : Int
  deriving DecidableEq, Repr

/-- `discordgo.Presence`. -/
structure Presence where
  User : User
  Status : String
  deriving DecidableEq, Repr

/-- `discordgo.Guild`, the fields the handlers read. -/
structure Guild where
  ID : Int
  Unavailable : Bool
  MemberCount : Int
  Presences : List Presence
  deriving DecidableEq, Repr

/-- `discordgo.Ready`. -/
structure Ready where
  Guilds : List Guild
  deriving DecidableEq, Repr

/-- `discordgo.GuildMemberAdd` and `discordgo.GuildMemberRemove` (a member). -/
structure Member where
  GuildID : Int
  User : User
  deriving DecidableEq, Repr

/-- `discordgo.PresenceUpdate`. -/
structure PresenceUpdate where
  GuildID : Int
  User : User
  Status : String
  deriving DecidableEq, Repr

/-- `discordgo.MessageCreate`. -/
structure Message where
  ID : Int
  ChannelID : Int
  Author : User
  deriving DecidableEq, Repr

/-- The guild a channel of the state belongs to. -/
structure GuildState where
  ID : Int
  deriving DecidableEq, Repr

/-- A channel of the bot state. `IsPrivate` is the value of the method of that
name; `Guild` is read for channels that are not private only. -/
structure ChannelState where
  ID : Int
  Guild : GuildState
  IsPrivate : Bool
  deriving DecidableEq, Repr

/-- The guild configuration, the excluded channels only. -/
structure ServerStatsConfig where
  ParsedChannels : List Int
  deriving DecidableEq, Repr

/-- What a message handler reads besides the event and the store:
`bot.State.Channel(true, id)` (`none` is `nil`) and `GetConfig(ctx, guildID)`. -/
structure Env where
  Channel : Int → Option ChannelState
  GetConfig : Int → Except String ServerStatsConfig

/-- Modelled from the spec: `common.ContainsInt64Slice` is not part of the source
file; it tells whether the channel is in the excluded-channel list. -/
def ContainsInt64Slice (slice : List Int) (search : Int) : Bool :=
  slice.any (fun v => v == search)

/-! ## The handlers

Each handler returns the store it leaves and the lines it wrote to the log. -/

/-- `MarkGuildAsToBeChecked`: the reply of the SADD is dropped. -/
def MarkGuildAsToBeChecked (ok : Bool) (rcli : Store) (guildID : Int) : Store :=
  (Cmd ok (Command.SADD "serverstats_active_guilds" (FormatInt guildID)) rcli).1

/-- The loop of `ApplyPresences` over the presences, on the pipeline built so far
and the running `count`. -/
def ApplyPresences_loop (guildID : Int) : List Presence → List Command × Nat → List Command × Nat
  | [], st => st
  | p :: ps, st =>
    if p.Status = "offline" then ApplyPresences_loop guildID ps st
    else
      ApplyPresences_loop guildID ps
        (st.1 ++ [Command.SADD ("guild_stats_online:" ++ StrID guildID) (FormatInt p.User.ID)],
          st.2 + 1)

/-- The commands `ApplyPresences` appends with `PipeAppend`, and the `count` it
ends with. -/
def ApplyPresences_pipe (guildID : Int) (presences : List Presence) : List Command × Nat :=
  ApplyPresences_loop guildID presences
    ([Command.DEL ("guild_stats_online:" ++ StrID guildID)], 1)

/-- `ApplyPresences`. -/
def ApplyPresences (ok : Nat → Bool) (client : Store) (guildID : Int)
    (presences : List Presence) : Store × Option String :=
  let st := ApplyPresences_pipe guildID presences
  GetRedisReplies ok client st.1 st.2

/-- The loop of `HandleReady` over the guilds; every guild's `ApplyPresences` gets
the outcomes that follow those used so far. -/
def HandleReady_loop : (Nat → Bool) → List Guild → Store → List String → Store × List String
  | _, [], client, log => (client, log)
  | ok, guild :: rest, client, log =>
    if guild.Unavailable then HandleReady_loop ok rest client log
    else
      let r := ApplyPresences ok client guild.ID guild.Presences
      let log := if r.2.isSome then log ++ ["Failed applying presences"] else log
      HandleReady_loop (fun i => ok (i + (ApplyPresences_pipe guild.ID guild.Presences).2))
        rest r.1 log

/-- `HandleReady`. -/
def HandleReady (ok : Nat → Bool) (r : Ready) (client : Store) : Store × List String :=
  HandleReady_loop ok r.Guilds client []

/-- `HandleGuildCreate`. -/
def HandleGuildCreate (ok : Nat → Bool) (g : Guild) (client : Store) : Store × List String :=
  let r := Cmd (ok 0) (Command.SET ("guild_stats_num_members:" ++ StrID g.ID) g.MemberCount) client
  let log := if r.2.isSome then ["Failed Settings member count"] else []
  let r := ApplyPresences (fun i => ok (i + 1)) r.1 g.ID g.Presences
  let log := if r.2.isSome then log ++ ["Failed applying presences"] else log
  (r.1, log)

/-- `HandleMemberAdd`; `now` is `time.Now().Unix()`. -/
def HandleMemberAdd (ok : Nat → Bool) (now : Int) (g : Member) (client : Store) :
    Store × List String :=
  let r := Cmd (ok 0)
    (Command.ZADD ("guild_stats_members_joined_day:" ++ StrID g.GuildID) now (FormatInt g.User.ID))
    client
  let log := if r.2.isSome then ["Failed adding member to stats"] else []
  let r := Cmd (ok 1) (Command.INCR ("guild_stats_num_members:" ++ StrID g.GuildID)) r.1
  let log := if r.2.isSome then log ++ ["Failed Increasing members"] else log
  (r.1, log)

/-- `HandlePresenceUpdate`. -/
def HandlePresenceUpdate (ok : Nat → Bool) (p : PresenceUpdate) (client : Store) :
    Store × List String :=
  if p.Status = "" then (client, []) -- Not a status update
  else
    let r :=
      if p.Status = "offline" then
        Cmd (ok 0) (Command.SREM ("guild_stats_online:" ++ StrID p.GuildID) (FormatInt p.User.ID))
          client
      else
        Cmd (ok 0) (Command.SADD ("guild_stats_online:" ++ StrID p.GuildID) (FormatInt p.User.ID))
          client
    let log := if r.2.isSome then ["Failed updating a presence"] else []
    (r.1, log)

/-- `HandleMemberRemove`; `now` is `time.Now().Unix()`. -/
def HandleMemberRemove (ok : Nat → Bool) (now : Int) (g : Member) (client : Store) :
    Store × List String :=
  let r := Cmd (ok 0)
    (Command.ZADD ("guild_stats_members_left_day:" ++ StrID g.GuildID) now (FormatInt g.User.ID))
    client
  let log := if r.2.isSome then ["Failed adding member to stats"] else []
  let r := Cmd (ok 1) (Command.DECR ("guild_stats_num_members:" ++ StrID g.GuildID)) r.1
  let log := if r.2.isSome then log ++ ["Failed decreasing members"] else log
  (r.1, log)

/-- The value stored for a message: channel, message and author IDs joined by `:`. -/
def messageValue (channelID messageID authorID : Int) : String :=
  StrID channelID ++ ":" ++ StrID messageID ++ ":" ++ StrID authorID

/-- `HandleMessageCreate`; `now` is `time.Now().Unix()`. -/
def HandleMessageCreate (env : Env) (ok : Nat → Bool) (now : Int) (m : Message) (client : Store) :
    Store × List String :=
  match env.Channel m.ChannelID with
  | none => (client, ["Channel not in state"])
  | some channel =>
    if channel.IsPrivate then (client, [])
    else
      match env.GetConfig channel.Guild.ID with
      | Except.error _ => (client, ["Failed retrieving config"])
      | Except.ok config =>
        if ContainsInt64Slice config.ParsedChannels channel.ID then (client, [])
        else
          let r := Cmd (ok 0)
            (Command.ZADD ("guild_stats_msg_channel_day:" ++ StrID channel.Guild.ID) now
              (messageValue channel.ID m.ID m.Author.ID))
            client
          let log := if r.2.isSome then ["Failed adding member to stats"] else []
          (MarkGuildAsToBeChecked (ok 1) r.1 channel.Guild.ID, log)

/-- The events the plugin subscribes to in `BotInit`, each with what its handler
reads from outside the store. -/
inductive Event where
  | Ready (r : Ready)
  | GuildCreate (g : Guild)
  | GuildMemberAdd (now : Int) (g : Member)
  | PresenceUpdate (p : PresenceUpdate)
  | GuildMemberRemove (now : Int) (g : Member)
  | MessageCreate (env : Env) (now : Int) (m : Message)

/-- The handler registered for each event. -/
def handle (ok : Nat → Bool) : Event → Store → Store × List String
  | Event.Ready r, client => HandleReady ok r client
  | Event.GuildCreate g, client => HandleGuildCreate ok g client
  | Event.GuildMemberAdd now g, client => HandleMemberAdd ok now g client
  | Event.PresenceUpdate p, client => HandlePresenceUpdate ok p client
  | Event.GuildMemberRemove now g, client => HandleMemberRemove ok now g client
  | Event.MessageCreate env now m, client => HandleMessageCreate env ok now m client

/-- Every command succeeds. -/
def allOk : Nat → Bool := fun _ => true

/-- The store after a sequence of events has been handled in order, every command
succeeding. -/
def run (es : List Event) (client : Store) : Store :=
  es.foldl (fun s e => (handle allOk e s).1) client

/-- A member of the guild joined. -/
def isJoin (guildID : Int) : Event → Bool
  | Event.GuildMemberAdd _ g => decide (g.GuildID = guildID)
  | _ => false

/-- A member of the guild left. -/
def isLeave (guildID : Int) : Event → Bool
  | Event.GuildMemberRemove _ g => decide (g.GuildID = guildID)
  | _ => false

/-- The guild became available (its snapshot arrived). -/
def isGuildCreate (guildID : Int) : Event → Bool
  | Event.GuildCreate g => decide (g.ID = guildID)
  | _ => false

/-- A sequence of member joins, each with the time it was handled at, as events. -/
def joinEvents (evs : List (Int × Member)) : List Event :=
  evs.map (fun x => Event.GuildMemberAdd x.1 x.2)

/-! ## Reading the store -/

/-- The members of a presence list that are not offline, as the store names them. -/
def onlineMembers (presences : List Presence) : Finset String :=
  ((presences.filter (fun p => p.Status ≠ "offline")).map (fun p => FormatInt p.User.ID)).toFinset

/-- The member counter of a guild. -/
def numMembers (s : Store) (guildID : Int) : Option Int :=
  s.counters ("guild_stats_num_members:" ++ StrID guildID)

/-- The online-set of a guild. -/
def online (s : Store) (guildID : Int) : Finset String :=
  s.sets ("guild_stats_online:" ++ StrID guildID)

/-- The joined sorted set of a guild. -/
def joined (s : Store) (guildID : Int) : List (String × Int) :=
  s.zsets ("guild_stats_members_joined_day:" ++ StrID guildID)

/-- The left sorted set of a guild. -/
def left (s : Store) (guildID : Int) : List (String × Int) :=
  s.zsets ("guild_stats_members_left_day:" ++ StrID guildID)

/-- The message sorted set of a guild. -/
def messages (s : Store) (guildID : Int) : List (String × Int) :=
  s.zsets ("guild_stats_msg_channel_day:" ++ StrID guildID)

/-- The global set of active guilds. -/
def activeGuilds (s : Store) : Finset String :=
  s.sets "serverstats_active_guilds"

/-! ## Decimal strings -/

theorem digitChar_toNat (d : Nat) (h : d < 10) : (digitChar d).toNat = 48 + d := by
  unfold digitChar
  interval_cases d <;> rfl

theorem digitChar_isDigit (d : Nat) (h : d < 10) : '0' ≤ digitChar d ∧ digitChar d ≤ '9' := by
  unfold digitChar
  interval_cases d <;> decide

theorem digitChar_ne_colon (d : Nat) (h : d < 10) : digitChar d ≠ ':' := by
  unfold digitChar
  interval_cases d <;> decide

theorem digitChar_ne_minus (d : Nat) (h : d < 10) : digitChar d ≠ '-' := by
  unfold digitChar
  interval_cases d <;> decide

theorem digitChar_ne_plus (d : Nat) (h : d < 10) : digitChar d ≠ '+' := by
  unfold digitChar
  interval_cases d <;> decide

theorem formatBits_acc (fuel u : Nat) (acc : List Char) :
    formatBits fuel u acc = formatBits fuel u [] ++ acc := by
  induction fuel generalizing u acc with
  | zero => simp [formatBits]
  | succ fuel ih =>
    unfold formatBits
    by_cases h : 10 ≤ u
    · rw [if_pos h, if_pos h, ih (u / 10) (digitChar (u % 10) :: acc),
        ih (u / 10) [digitChar (u % 10)]]
      simp
    · rw [if_neg h, if_neg h]
      simp

theorem formatBits_succ (fuel u : Nat) :
    formatBits (fuel + 1) u [] =
      if 10 ≤ u then formatBits fuel (u / 10) [] ++ [digitChar (u % 10)] else [digitChar u] := by
  conv_lhs => unfold formatBits
  by_cases h : 10 ≤ u
  · rw [if_pos h, if_pos h, formatBits_acc]
  · rw [if_neg h, if_neg h]

/-- Every character `formatBits` writes is one of the ten digits. -/
theorem formatBits_digit (fuel u : Nat) (h : u < fuel) :
    ∀ c ∈ formatBits fuel u [], ∃ d, d < 10 ∧ c = digitChar d := by
  induction fuel generalizing u with
  | zero => omega
  | succ fuel ih =>
    rw [formatBits_succ]
    by_cases h10 : 10 ≤ u
    · rw [if_pos h10]
      intro c hc
      rcases List.mem_append.mp hc with hc | hc
      · exact ih (u / 10) (by omega) c hc
      · exact ⟨u % 10, Nat.mod_lt _ (by decide), by simpa using hc⟩
    · rw [if_neg h10]
      intro c hc
      exact ⟨u, by omega, by simpa using hc⟩

theorem formatBits_ne_nil (fuel u : Nat) (h : u < fuel) : formatBits fuel u [] ≠ [] := by
  cases fuel with
  | zero => omega
  | succ fuel =>
    rw [formatBits_succ]
    by_cases h10 : 10 ≤ u
    · rw [if_pos h10]; simp
    · rw [if_neg h10]; simp

/-- Reading the digits back gives the number: the digit loop loses nothing. -/
theorem decValue_formatBits (fuel u : Nat) (h : u < fuel) :
    decValue (formatBits fuel u []) = u := by
  induction fuel generalizing u with
  | zero => omega
  | succ fuel ih =>
    rw [formatBits_succ]
    by_cases h10 : 10 ≤ u
    · rw [if_pos h10]
      have := ih (u / 10) (by omega)
      unfold decValue at this ⊢
      rw [List.foldl_append, this]
      simp [digitChar_toNat (u % 10) (Nat.mod_lt _ (by decide))]
      omega
    · rw [if_neg h10]
      simp [decValue, digitChar_toNat u (by omega)]

/-- The decimal form of an integer determines it. -/
theorem FormatInt_injective : Function.Injective FormatInt := by
  intro a b hab
  have key : ∀ n m : Nat, formatBits (n + 1) n [] = formatBits (m + 1) m [] → n = m := by
    intro n m h
    have := congrArg decValue h
    rwa [decValue_formatBits _ _ (Nat.lt_succ_self n),
      decValue_formatBits _ _ (Nat.lt_succ_self m)] at this
  have mixed : ∀ n m : Nat, '-' :: formatBits (n + 1) n [] ≠ formatBits (m + 1) m [] := by
    intro n m h
    have hm := formatBits_digit (m + 1) m (Nat.lt_succ_self m) '-' (by rw [← h]; simp)
    obtain ⟨d, hd, hd2⟩ := hm
    exact digitChar_ne_minus d hd hd2.symm
  unfold FormatInt at hab
  by_cases ha : a < 0 <;> by_cases hb : b < 0
  · rw [if_pos ha, if_pos hb] at hab
    have := key _ _ (List.cons.inj (congrArg String.data hab)).2
    omega
  · rw [if_pos ha, if_neg hb] at hab
    exact absurd (congrArg String.data hab) (mixed a.natAbs b.natAbs)
  · rw [if_neg ha, if_pos hb] at hab
    exact absurd (congrArg String.data hab).symm (mixed b.natAbs a.natAbs)
  · rw [if_neg ha, if_neg hb] at hab
    have := key _ _ (congrArg String.data hab)
    omega

theorem StrID_injective : Function.Injective StrID := FormatInt_injective

/-- The decimal form of an integer has no colon. -/
theorem FormatInt_no_colon (i : Int) : ':' ∉ (FormatInt i).data := by
  have hd : ':' ∉ formatBits (i.natAbs + 1) i.natAbs [] := by
    intro hc
    obtain ⟨d, hd, hd2⟩ := formatBits_digit _ _ (Nat.lt_succ_self _) ':' hc
    exact digitChar_ne_colon d hd hd2.symm
  unfold FormatInt
  by_cases h : i < 0
  · rw [if_pos h]
    simp only [List.mem_cons, not_or]
    exact ⟨by decide, hd⟩
  · rw [if_neg h]
    exact hd

/-! ## Keys -/

theorem numMembersKey_inj (a b : Int) :
    "guild_stats_num_members:" ++ StrID a = "guild_stats_num_members:" ++ StrID b ↔ a = b := by
  constructor
  · intro h
    have h2 := congrArg String.data h
    simp only [String.data_append, List.append_cancel_left_eq] at h2
    exact StrID_injective (String.ext h2)
  · intro h; rw [h]

theorem onlineKey_inj (a b : Int) :
    "guild_stats_online:" ++ StrID a = "guild_stats_online:" ++ StrID b ↔ a = b := by
  constructor
  · intro h
    have h2 := congrArg String.data h
    simp only [String.data_append, List.append_cancel_left_eq] at h2
    exact StrID_injective (String.ext h2)
  · intro h; rw [h]

theorem joinedKey_inj (a b : Int) :
    "guild_stats_members_joined_day:" ++ StrID a =
      "guild_stats_members_joined_day:" ++ StrID b ↔ a = b := by
  constructor
  · intro h
    have h2 := congrArg String.data h
    simp only [String.data_append, List.append_cancel_left_eq] at h2
    exact StrID_injective (String.ext h2)
  · intro h; rw [h]

theorem numMembersKey_ne_onlineKey (x y : String) :
    "guild_stats_num_members:" ++ x ≠ "guild_stats_online:" ++ y := by
  intro h
  have h2 := congrArg String.data h
  simp at h2

theorem onlineKey_ne_numMembersKey (x y : String) :
    "guild_stats_online:" ++ x ≠ "guild_stats_num_members:" ++ y :=
  fun h => numMembersKey_ne_onlineKey y x h.symm

theorem activeKey_ne_onlineKey (y : String) :
    "serverstats_active_guilds" ≠ "guild_stats_online:" ++ y := by
  intro h
  have h2 := congrArg String.data h
  simp at h2

/-! ## The store: what a run of successful commands leaves -/

theorem Store.ext {s t : Store} (h1 : s.counters = t.counters) (h2 : s.sets = t.sets)
    (h3 : s.zsets = t.zsets) : s = t := by
  cases s; cases t; simp_all

theorem execPipeline_allOk (cs : List Command) (i : Nat) (s : Store) :
    execPipeline allOk cs i s = (cs.foldl Store.exec s, List.replicate cs.length none) := by
  induction cs generalizing i s with
  | nil => rfl
  | cons c cs ih =>
    simp only [execPipeline, Cmd, allOk, if_true, ih, List.foldl_cons, List.length_cons,
      List.replicate_succ]

theorem find_isSome_replicate_none (n : Nat) :
    (List.replicate n (none : Option String)).find? Option.isSome = none := by
  induction n with
  | zero => rfl
  | succ n ih => simp [List.replicate_succ, ih]

/-- When every command succeeds and as many replies are read as commands are
pending, the pipeline is executed and no error comes back. -/
theorem GetRedisReplies_allOk (s : Store) (cs : List Command) :
    GetRedisReplies allOk s cs cs.length = (cs.foldl Store.exec s, none) := by
  simp [GetRedisReplies, execPipeline_allOk, find_isSome_replicate_none]

/-- The members `ApplyPresences` adds: one per listed presence that is not offline. -/
theorem ApplyPresences_loop_eq (guildID : Int) (ps : List Presence) (st : List Command × Nat) :
    ApplyPresences_loop guildID ps st =
      (st.1 ++ (ps.filter (fun p => p.Status ≠ "offline")).map
          (fun p => Command.SADD ("guild_stats_online:" ++ StrID guildID) (FormatInt p.User.ID)),
        st.2 + (ps.filter (fun p => p.Status ≠ "offline")).length) := by
  induction ps generalizing st with
  | nil => simp [ApplyPresences_loop]
  | cons p ps ih =>
    unfold ApplyPresences_loop
    by_cases h : p.Status = "offline"
    · rw [if_pos h, ih]
      simp [h]
    · rw [if_neg h, ih]
      simp [h]
      omega

theorem foldl_SADD (key : String) (ms : List String) (s : Store) :
    (ms.map (fun m => Command.SADD key m)).foldl Store.exec s =
      { s with sets := Function.update s.sets key (s.sets key ∪ ms.toFinset) } := by
  induction ms generalizing s with
  | nil =>
    apply Store.ext <;> simp
  | cons m ms ih =>
    rw [List.map_cons, List.foldl_cons, ih]
    apply Store.ext
    · rfl
    · simp only [Store.exec, Function.update_same, Function.update_idem, List.toFinset_cons]
      ext x
      simp
    · rfl

/-- What `ApplyPresences` leaves and returns when every command succeeds. -/
theorem ApplyPresences_allOk (s : Store) (guildID : Int) (ps : List Presence) :
    ApplyPresences allOk s guildID ps =
      ({ counters := Function.update s.counters ("guild_stats_online:" ++ StrID guildID) none,
         sets := Function.update s.sets ("guild_stats_online:" ++ StrID guildID) (onlineMembers ps),
         zsets := Function.update s.zsets ("guild_stats_online:" ++ StrID guildID) [] },
        none) := by
  unfold ApplyPresences ApplyPresences_pipe
  rw [ApplyPresences_loop_eq]
  have hlen : 1 + (ps.filter (fun p => p.Status ≠ "offline")).length =
      ([Command.DEL ("guild_stats_online:" ++ StrID guildID)] ++
        (ps.filter (fun p => p.Status ≠ "offline")).map
          (fun p => Command.SADD ("guild_stats_online:" ++ StrID guildID)
            (FormatInt p.User.ID))).length := by
    simp
    omega
  simp only [hlen, GetRedisReplies_allOk]
  rw [List.foldl_append]
  have hmap : (ps.filter (fun p => p.Status ≠ "offline")).map
      (fun p => Command.SADD ("guild_stats_online:" ++ StrID guildID) (FormatInt p.User.ID)) =
      ((ps.filter (fun p => p.Status ≠ "offline")).map (fun p => FormatInt p.User.ID)).map
        (fun m => Command.SADD ("guild_stats_online:" ++ StrID guildID) m) := by
    simp
  rw [hmap, foldl_SADD]
  simp [Store.exec, onlineMembers]

theorem execPipeline_congr (ok ok2 : Nat → Bool) (cs : List Command) (i : Nat) (s : Store)
    (h : ∀ j, j < cs.length → ok (i + j) = ok2 (i + j)) :
    execPipeline ok cs i s = execPipeline ok2 cs i s := by
  induction cs generalizing i s with
  | nil => rfl
  | cons c cs ih =>
    have h0 : ok i = ok2 i := by simpa using h 0 (by simp)
    have ht : ∀ j, j < cs.length → ok (i + 1 + j) = ok2 (i + 1 + j) := by
      intro j hj
      have := h (j + 1) (by simpa using hj)
      rwa [show i + (j + 1) = i + 1 + j by omega] at this
    simp only [execPipeline, h0, ih (i + 1) _ ht]

theorem execPipeline_length (ok : Nat → Bool) (cs : List Command) (i : Nat) (s : Store) :
    (execPipeline ok cs i s).2.length = cs.length := by
  induction cs generalizing i s with
  | nil => rfl
  | cons c cs ih => simp [execPipeline, ih]

theorem execPipeline_no_error (ok : Nat → Bool) (cs : List Command) (i : Nat) (s : Store)
    (h : (execPipeline ok cs i s).2.find? Option.isSome = none) :
    ∀ j, j < cs.length → ok (i + j) = true := by
  induction cs generalizing i s with
  | nil => intro j hj; simp at hj
  | cons c cs ih =>
    simp only [execPipeline, Cmd] at h
    by_cases h0 : ok i = true
    · simp only [h0, if_true, List.find?_cons, Option.isSome_none] at h
      intro j hj
      cases j with
      | zero => simpa using h0
      | succ j =>
        have := ih (i + 1) _ h j (by simpa using hj)
        rwa [show i + 1 + j = i + (j + 1) by omega] at this
    · simp [h0] at h

/-- A pipeline whose replies were all read without error ran as if every command
had succeeded. -/
theorem GetRedisReplies_ok (ok : Nat → Bool) (s : Store) (cs : List Command)
    (h : (GetRedisReplies ok s cs cs.length).2 = none) :
    GetRedisReplies ok s cs cs.length = GetRedisReplies allOk s cs cs.length := by
  have hall : ∀ j, j < cs.length → ok (0 + j) = allOk (0 + j) := by
    have htake : (execPipeline ok cs 0 s).2.take cs.length = (execPipeline ok cs 0 s).2 := by
      rw [List.take_of_length_le]
      rw [execPipeline_length]
    unfold GetRedisReplies at h
    simp only [htake] at h
    cases hf : (execPipeline ok cs 0 s).2.find? Option.isSome with
    | none => exact fun j hj => by rw [execPipeline_no_error ok cs 0 s hf j hj]; rfl
    | some e =>
      rw [hf] at h
      have := List.find?_some hf
      simp only at h
      rw [h] at this
      simp at this
  unfold GetRedisReplies
  rw [execPipeline_congr ok allOk cs 0 s hall]

theorem ApplyPresences_pipe_count (guildID : Int) (ps : List Presence) :
    (ApplyPresences_pipe guildID ps).2 = (ApplyPresences_pipe guildID ps).1.length := by
  unfold ApplyPresences_pipe
  rw [ApplyPresences_loop_eq]
  simp
  omega

/-- An `ApplyPresences` that returns no error has left the store an all-successful
run leaves. -/
theorem ApplyPresences_ok (ok : Nat → Bool) (s : Store) (guildID : Int) (ps : List Presence)
    (h : (ApplyPresences ok s guildID ps).2 = none) :
    ApplyPresences ok s guildID ps = ApplyPresences allOk s guildID ps := by
  unfold ApplyPresences at h ⊢
  simp only [ApplyPresences_pipe_count] at h ⊢
  exact GetRedisReplies_ok ok s _ h

theorem mem_onlineMembers (ps : List Presence) (x : String) :
    x ∈ onlineMembers ps ↔ ∃ p ∈ ps, p.Status ≠ "offline" ∧ FormatInt p.User.ID = x := by
  simp [onlineMembers, and_assoc]

/-! ## Snapshot replacement (`ApplyPresences`) -/

/-- C3: when `ApplyPresences` returns no error, whatever the outcome oracle and the
prior store, the online-set of the guild holds the user `u` exactly when the list has
an entry for `u` whose status is not "offline", each of its members is such a user
ID, and the online-set of every other guild is what it was. -/
theorem ApplyPresences_replaces_online (ok : Nat → Bool) (s : Store) (guildID : Int)
    (ps : List Presence) (h : (ApplyPresences ok s guildID ps).2 = none) :
    (∀ u : Int, FormatInt u ∈ online (ApplyPresences ok s guildID ps).1 guildID ↔
        ∃ p ∈ ps, p.Status ≠ "offline" ∧ p.User.ID = u) ∧
    (∀ x ∈ online (ApplyPresences ok s guildID ps).1 guildID,
        ∃ p ∈ ps, p.Status ≠ "offline" ∧ x = FormatInt p.User.ID) ∧
    (∀ other : Int, other ≠ guildID →
        online (ApplyPresences ok s guildID ps).1 other = online s other) := by
  rw [ApplyPresences_ok ok s guildID ps h, ApplyPresences_allOk]
  refine ⟨?_, ?_, ?_⟩
  · intro u
    simp only [online, Function.update_same, mem_onlineMembers]
    constructor
    · rintro ⟨p, hp, hs, he⟩
      exact ⟨p, hp, hs, FormatInt_injective he⟩
    · rintro ⟨p, hp, hs, he⟩
      exact ⟨p, hp, hs, by rw [he]⟩
  · intro x hx
    simp only [online, Function.update_same, mem_onlineMembers] at hx
    obtain ⟨p, hp, hs, he⟩ := hx
    exact ⟨p, hp, hs, he.symm⟩
  · intro other hne
    simp only [online]
    rw [Function.update_noteq]
    exact fun hk => hne ((onlineKey_inj other guildID).mp hk)

theorem ApplyPresences_replaces_online_witness :
    (ApplyPresences allOk
        { Store.empty with sets := fun _ => {"5"} } 1 [⟨⟨7⟩, "online"⟩, ⟨⟨8⟩, "offline"⟩]).2 = none ∧
    ((∀ u : Int, FormatInt u ∈ online (ApplyPresences allOk
        { Store.empty with sets := fun _ => {"5"} } 1
          [⟨⟨7⟩, "online"⟩, ⟨⟨8⟩, "offline"⟩]).1 1 ↔
        ∃ p ∈ [(⟨⟨7⟩, "online"⟩ : Presence), ⟨⟨8⟩, "offline"⟩],
          p.Status ≠ "offline" ∧ p.User.ID = u) ∧
    (∀ x ∈ online (ApplyPresences allOk
        { Store.empty with sets := fun _ => {"5"} } 1
          [⟨⟨7⟩, "online"⟩, ⟨⟨8⟩, "offline"⟩]).1 1,
        ∃ p ∈ [(⟨⟨7⟩, "online"⟩ : Presence), ⟨⟨8⟩, "offline"⟩],
          p.Status ≠ "offline" ∧ x = FormatInt p.User.ID) ∧
    (∀ other : Int, other ≠ 1 →
        online (ApplyPresences allOk
          { Store.empty with sets := fun _ => {"5"} } 1
            [⟨⟨7⟩, "online"⟩, ⟨⟨8⟩, "offline"⟩]).1 other =
          online { Store.empty with sets := fun _ => {"5"} } other)) :=
  ⟨rfl, ApplyPresences_replaces_online allOk _ 1 _ rfl⟩

/-- C4: with every command succeeding, applying `ApplyPresences` with the same list a
second time leaves the store, and so the online-set, as the first application left
it, and returns no error again. -/
theorem ApplyPresences_idempotent (s : Store) (guildID : Int) (ps : List Presence) :
    ApplyPresences allOk (ApplyPresences allOk s guildID ps).1 guildID ps =
      ApplyPresences allOk s guildID ps ∧
    online (ApplyPresences allOk (ApplyPresences allOk s guildID ps).1 guildID ps).1 guildID =
      online (ApplyPresences allOk s guildID ps).1 guildID := by
  have h : ApplyPresences allOk (ApplyPresences allOk s guildID ps).1 guildID ps =
      ApplyPresences allOk s guildID ps := by
    rw [ApplyPresences_allOk, ApplyPresences_allOk]
    simp only [Function.update_idem]
  exact ⟨h, by rw [h]⟩

/-- C8: the reply count `ApplyPresences` passes to `GetRedisReplies` is the number of
commands it appended to the pipeline: the DEL, then one SADD for every entry of the
list whose status is not "offline", in the order of the list. -/
theorem ApplyPresences_reply_count (ok : Nat → Bool) (s : Store) (guildID : Int)
    (ps : List Presence) :
    ApplyPresences ok s guildID ps =
      GetRedisReplies ok s (ApplyPresences_pipe guildID ps).1 (ApplyPresences_pipe guildID ps).2 ∧
    (ApplyPresences_pipe guildID ps).2 = (ApplyPresences_pipe guildID ps).1.length ∧
    (ApplyPresences_pipe guildID ps).2 = 1 + (ps.filter (fun p => p.Status ≠ "offline")).length ∧
    (ApplyPresences_pipe guildID ps).1 =
      Command.DEL ("guild_stats_online:" ++ StrID guildID) ::
        (ps.filter (fun p => p.Status ≠ "offline")).map
          (fun p => Command.SADD ("guild_stats_online:" ++ StrID guildID)
            (FormatInt p.User.ID)) := by
  refine ⟨rfl, ApplyPresences_pipe_count guildID ps, ?_, ?_⟩
  · unfold ApplyPresences_pipe
    rw [ApplyPresences_loop_eq]
  · unfold ApplyPresences_pipe
    rw [ApplyPresences_loop_eq]
    rfl

/-! ## The member counter -/

theorem HandleReady_loop_counters (gs : List Guild) (s : Store) (log : List String) (g : Int) :
    numMembers (HandleReady_loop allOk gs s log).1 g = numMembers s g := by
  induction gs generalizing s log with
  | nil => rfl
  | cons guild rest ih =>
    unfold HandleReady_loop
    by_cases hu : guild.Unavailable = true
    · rw [if_pos hu]
      exact ih s log
    · rw [if_neg hu]
      show numMembers (HandleReady_loop allOk rest _ _).1 g = _
      rw [ih, ApplyPresences_allOk]
      simp only [numMembers]
      rw [Function.update_noteq (numMembersKey_ne_onlineKey _ _)]

theorem HandleGuildCreate_counters (gc : Guild) (s : Store) (g : Int) :
    numMembers (HandleGuildCreate allOk gc s).1 g =
      if gc.ID = g then some gc.MemberCount else numMembers s g := by
  show numMembers (ApplyPresences allOk
    (s.exec (Command.SET ("guild_stats_num_members:" ++ StrID gc.ID) gc.MemberCount))
      gc.ID gc.Presences).1 g = _
  rw [ApplyPresences_allOk]
  simp only [numMembers, Store.exec]
  rw [Function.update_noteq (numMembersKey_ne_onlineKey _ _)]
  by_cases h : gc.ID = g
  · rw [if_pos h, h, Function.update_same]
  · rw [if_neg h, Function.update_noteq]
    exact fun hk => h ((numMembersKey_inj g gc.ID).mp hk).symm

theorem HandleMemberAdd_counters (now : Int) (m : Member) (s : Store) (g : Int) :
    numMembers (HandleMemberAdd allOk now m s).1 g =
      if m.GuildID = g then some ((numMembers s g).getD 0 + 1) else numMembers s g := by
  simp only [HandleMemberAdd, Cmd, allOk, if_true, numMembers, Store.exec]
  by_cases h : m.GuildID = g
  · rw [if_pos h, h, Function.update_same]
  · rw [if_neg h, Function.update_noteq]
    exact fun hk => h ((numMembersKey_inj g m.GuildID).mp hk).symm

theorem HandleMemberRemove_counters (now : Int) (m : Member) (s : Store) (g : Int) :
    numMembers (HandleMemberRemove allOk now m s).1 g =
      if m.GuildID = g then some ((numMembers s g).getD 0 - 1) else numMembers s g := by
  simp only [HandleMemberRemove, Cmd, allOk, if_true, numMembers, Store.exec]
  by_cases h : m.GuildID = g
  · rw [if_pos h, h, Function.update_same]
  · rw [if_neg h, Function.update_noteq]
    exact fun hk => h ((numMembersKey_inj g m.GuildID).mp hk).symm

theorem HandlePresenceUpdate_counters (ok : Nat → Bool) (p : PresenceUpdate) (s : Store) :
    (HandlePresenceUpdate ok p s).1.counters = s.counters := by
  unfold HandlePresenceUpdate Cmd
  by_cases h1 : p.Status = ""
  · rw [if_pos h1]
  · rw [if_neg h1]
    by_cases h2 : p.Status = "offline" <;> cases ok 0 <;> simp [h2, Store.exec]

theorem HandleMessageCreate_counters (env : Env) (ok : Nat → Bool) (now : Int) (m : Message)
    (s : Store) : (HandleMessageCreate env ok now m s).1.counters = s.counters := by
  unfold HandleMessageCreate
  cases env.Channel m.ChannelID with
  | none => rfl
  | some channel =>
    simp only
    by_cases hp : channel.IsPrivate = true
    · rw [if_pos hp]
    · rw [if_neg hp]
      cases env.GetConfig channel.Guild.ID with
      | error e => rfl
      | ok config =>
        simp only
        by_cases hc : ContainsInt64Slice config.ParsedChannels channel.ID = true
        · rw [if_pos hc]
        · rw [if_neg hc]
          unfold MarkGuildAsToBeChecked Cmd
          cases ok 0 <;> cases ok 1 <;> simp [Store.exec]

/-- The member counter of a guild after one event, every command succeeding. -/
theorem numMembers_handle (e : Event) (s : Store) (g : Int) :
    numMembers (handle allOk e s).1 g =
      if isGuildCreate g e then
        (match e with
          | Event.GuildCreate gc => some gc.MemberCount
          | _ => numMembers s g)
      else if isJoin g e then some ((numMembers s g).getD 0 + 1)
      else if isLeave g e then some ((numMembers s g).getD 0 - 1)
      else numMembers s g := by
  cases e with
  | Ready r => simp [handle, HandleReady, HandleReady_loop_counters, isGuildCreate, isJoin, isLeave]
  | GuildCreate gc =>
    simp only [handle, HandleGuildCreate_counters, isGuildCreate, isJoin, isLeave]
    by_cases h : gc.ID = g <;> simp [h]
  | GuildMemberAdd now m =>
    simp only [handle, HandleMemberAdd_counters, isGuildCreate, isJoin, isLeave]
    by_cases h : m.GuildID = g <;> simp [h]
  | PresenceUpdate p =>
    simp [handle, numMembers, HandlePresenceUpdate_counters, isGuildCreate, isJoin, isLeave]
  | GuildMemberRemove now m =>
    simp only [handle, HandleMemberRemove_counters, isGuildCreate, isJoin, isLeave]
    by_cases h : m.GuildID = g <;> simp [h]
  | MessageCreate env now m =>
    simp [handle, numMembers, HandleMessageCreate_counters, isGuildCreate, isJoin, isLeave]

theorem run_cons (e : Event) (es : List Event) (s : Store) :
    run (e :: es) s = run es (handle allOk e s).1 := rfl

theorem numMembers_run (es : List Event) (s : Store) (g : Int) (c : Int)
    (hs : numMembers s g = some c) (hes : ∀ e ∈ es, isGuildCreate g e = false) :
    numMembers (run es s) g =
      some (c + (es.countP (isJoin g) : Int) - (es.countP (isLeave g) : Int)) := by
  induction es generalizing s c with
  | nil => simp [run, hs]
  | cons e es ih =>
    have he : isGuildCreate g e = false := hes e (List.mem_cons_self _ _)
    have hrest : ∀ x ∈ es, isGuildCreate g x = false :=
      fun x hx => hes x (List.mem_cons_of_mem _ hx)
    rw [run_cons]
    have hstep := numMembers_handle e s g
    rw [he, hs] at hstep
    simp only [Bool.false_eq_true, if_false, Option.getD_some] at hstep
    by_cases hj : isJoin g e = true
    · have hl : isLeave g e = false := by
        cases e <;> simp_all [isJoin, isLeave]
      rw [if_pos hj] at hstep
      rw [ih _ _ hstep hrest, List.countP_cons_of_pos _ _ hj,
        List.countP_cons_of_neg _ _ (by simp [hl])]
      congr 1
      push_cast
      ring
    · rw [if_neg hj] at hstep
      by_cases hl : isLeave g e = true
      · rw [if_pos hl] at hstep
        rw [ih _ _ hstep hrest, List.countP_cons_of_neg _ _ hj,
          List.countP_cons_of_pos _ _ hl]
        congr 1
        push_cast
        ring
      · rw [if_neg hl] at hstep
        rw [ih _ _ hstep hrest, List.countP_cons_of_neg _ _ hj,
          List.countP_cons_of_neg _ _ hl]

/-- C1: after `HandleGuildCreate` has set the member counter of a guild to the
baseline `MemberCount`, and any sequence of events has been handled in which the
guild is not made available again (every command succeeding), the counter is the
baseline plus the number of joins minus the number of leaves of that guild, in
whatever order they came; an event that is no snapshot, join or leave of the guild
(so every event of another guild) leaves the counter as it was. -/
theorem member_counter_after_baseline (s : Store) (gc : Guild) (es : List Event)
    (hes : ∀ e ∈ es, isGuildCreate gc.ID e = false) :
    numMembers (run (Event.GuildCreate gc :: es) s) gc.ID =
      some (gc.MemberCount + (es.countP (isJoin gc.ID) : Int) -
        (es.countP (isLeave gc.ID) : Int)) ∧
    ∀ (e : Event) (t : Store), isGuildCreate gc.ID e = false → isJoin gc.ID e = false →
      isLeave gc.ID e = false → numMembers (handle allOk e t).1 gc.ID = numMembers t gc.ID := by
  constructor
  · rw [run_cons]
    apply numMembers_run _ _ _ _ _ hes
    rw [numMembers_handle]
    simp [isGuildCreate]
  · intro e t h1 h2 h3
    rw [numMembers_handle, h1, h2, h3]
    simp

theorem member_counter_after_baseline_witness :
    (∀ e ∈ [Event.GuildMemberAdd 100 ⟨1, ⟨7⟩⟩, Event.GuildMemberAdd 105 ⟨1, ⟨8⟩⟩,
        Event.GuildMemberAdd 106 ⟨2, ⟨9⟩⟩, Event.GuildMemberRemove 110 ⟨1, ⟨7⟩⟩],
      isGuildCreate (⟨1, false, 10, []⟩ : Guild).ID e = false) ∧
    numMembers (run (Event.GuildCreate ⟨1, false, 10, []⟩ ::
      [Event.GuildMemberAdd 100 ⟨1, ⟨7⟩⟩, Event.GuildMemberAdd 105 ⟨1, ⟨8⟩⟩,
        Event.GuildMemberAdd 106 ⟨2, ⟨9⟩⟩, Event.GuildMemberRemove 110 ⟨1, ⟨7⟩⟩])
      Store.empty) 1 = some 11 :=
  ⟨by simp [isGuildCreate],
    (member_counter_after_baseline Store.empty ⟨1, false, 10, []⟩
      [Event.GuildMemberAdd 100 ⟨1, ⟨7⟩⟩, Event.GuildMemberAdd 105 ⟨1, ⟨8⟩⟩,
        Event.GuildMemberAdd 106 ⟨2, ⟨9⟩⟩, Event.GuildMemberRemove 110 ⟨1, ⟨7⟩⟩]
      (by simp [isGuildCreate])).1⟩

/-! ## Presence updates -/

theorem HandlePresenceUpdate_online (q : PresenceUpdate) (s : Store) (g : Int) :
    online (HandlePresenceUpdate allOk q s).1 g =
      if q.Status = "" then online s g
      else if q.GuildID = g then
        (if q.Status = "offline" then (online s g).erase (FormatInt q.User.ID)
          else insert (FormatInt q.User.ID) (online s g))
      else online s g := by
  unfold HandlePresenceUpdate
  by_cases h1 : q.Status = ""
  · rw [if_pos h1, if_pos h1]
  · rw [if_neg h1, if_neg h1]
    by_cases hg : q.GuildID = g
    · rw [if_pos hg]
      by_cases h2 : q.Status = "offline"
      · simp [h2, Cmd, allOk, Store.exec, online, hg]
      · simp [h2, Cmd, allOk, Store.exec, online, hg]
    · rw [if_neg hg]
      have hk : "guild_stats_online:" ++ StrID g ≠ "guild_stats_online:" ++ StrID q.GuildID :=
        fun hk => hg ((onlineKey_inj g q.GuildID).mp hk).symm
      by_cases h2 : q.Status = "offline"
      · simp [h2, Cmd, allOk, Store.exec, online, Function.update_noteq hk]
      · simp [h2, Cmd, allOk, Store.exec, online, Function.update_noteq hk]

/-- A presence update that is not a status update of user `u` in guild `g` does not
change whether `u` is in the online-set of `g`. -/
theorem HandlePresenceUpdate_other (q : PresenceUpdate) (s : Store) (g u : Int)
    (h : q.GuildID = g → q.User.ID = u → q.Status = "") :
    (FormatInt u ∈ online (HandlePresenceUpdate allOk q s).1 g ↔ FormatInt u ∈ online s g) := by
  rw [HandlePresenceUpdate_online]
  by_cases h1 : q.Status = ""
  · rw [if_pos h1]
  · rw [if_neg h1]
    by_cases hg : q.GuildID = g
    · rw [if_pos hg]
      have hu : q.User.ID ≠ u := fun hu => h1 (h hg hu)
      have hf : FormatInt u ≠ FormatInt q.User.ID := fun hf => hu (FormatInt_injective hf).symm
      by_cases h2 : q.Status = "offline"
      · rw [if_pos h2, Finset.mem_erase]
        exact ⟨fun hx => hx.2, fun hx => ⟨hf, hx⟩⟩
      · rw [if_neg h2, Finset.mem_insert]
        exact ⟨fun hx => hx.resolve_left hf, fun hx => Or.inr hx⟩
    · rw [if_neg hg]

theorem run_presence_other (post : List PresenceUpdate) (s : Store) (g u : Int)
    (h : ∀ q ∈ post, q.GuildID = g → q.User.ID = u → q.Status = "") :
    (FormatInt u ∈ online (run (post.map Event.PresenceUpdate) s) g ↔
      FormatInt u ∈ online s g) := by
  induction post generalizing s with
  | nil => rfl
  | cons q post ih =>
    rw [List.map_cons, run_cons, ih _ (fun x hx => h x (List.mem_cons_of_mem _ hx))]
    exact HandlePresenceUpdate_other q s g u (h q (List.mem_cons_self _ _))

theorem run_append (es fs : List Event) (s : Store) :
    run (es ++ fs) s = run fs (run es s) := by
  simp [run, List.foldl_append]

/-- C2, as the handler implements it: in a sequence of presence updates (every
command succeeding, any initial store), let `p` be the last update of user `u` in
guild `g` that carries a status, every later update of that user in that guild having
the empty status. If the status of `p` is "offline" the user is not in the online-set
of the guild afterwards, and otherwise the user is in it, whatever the earlier
updates were. An update with the empty status leaves the store untouched. -/
theorem presence_last_status_wins (s : Store) (pre post : List PresenceUpdate)
    (p : PresenceUpdate) (hp : p.Status ≠ "")
    (hpost : ∀ q ∈ post, q.GuildID = p.GuildID → q.User.ID = p.User.ID → q.Status = "") :
    (p.Status = "offline" →
      FormatInt p.User.ID ∉
        online (run ((pre ++ p :: post).map Event.PresenceUpdate) s) p.GuildID) ∧
    (p.Status ≠ "offline" →
      FormatInt p.User.ID ∈
        online (run ((pre ++ p :: post).map Event.PresenceUpdate) s) p.GuildID) ∧
    (∀ (ok : Nat → Bool) (q : PresenceUpdate) (t : Store), q.Status = "" →
      HandlePresenceUpdate ok q t = (t, [])) := by
  have hrun :
      (FormatInt p.User.ID ∈
        online (run ((pre ++ p :: post).map Event.PresenceUpdate) s) p.GuildID) ↔
      FormatInt p.User.ID ∈ online (HandlePresenceUpdate allOk p
        (run (pre.map Event.PresenceUpdate) s)).1 p.GuildID := by
    rw [List.map_append, run_append, List.map_cons, run_cons,
      run_presence_other post _ p.GuildID p.User.ID hpost]
    rfl
  refine ⟨?_, ?_, ?_⟩
  · intro hoff
    rw [hrun, HandlePresenceUpdate_online, if_neg hp, if_pos rfl, if_pos hoff]
    exact Finset.not_mem_erase _ _
  · intro hon
    rw [hrun, HandlePresenceUpdate_online, if_neg hp, if_pos rfl, if_neg hon]
    exact Finset.mem_insert_self _ _
  · intro ok q t hq
    unfold HandlePresenceUpdate
    rw [if_pos hq]

theorem presence_last_status_wins_witness :
    ((⟨1, ⟨7⟩, "idle"⟩ : PresenceUpdate).Status ≠ "" ∧
      ∀ q ∈ [(⟨1, ⟨7⟩, ""⟩ : PresenceUpdate), ⟨1, ⟨8⟩, "offline"⟩],
        q.GuildID = (⟨1, ⟨7⟩, "idle"⟩ : PresenceUpdate).GuildID →
        q.User.ID = (⟨1, ⟨7⟩, "idle"⟩ : PresenceUpdate).User.ID → q.Status = "") ∧
    FormatInt 7 ∈ online (run (([(⟨1, ⟨7⟩, "offline"⟩ : PresenceUpdate)] ++
      (⟨1, ⟨7⟩, "idle"⟩ : PresenceUpdate) ::
      [⟨1, ⟨7⟩, ""⟩, ⟨1, ⟨8⟩, "offline"⟩]).map Event.PresenceUpdate) Store.empty) 1 :=
  ⟨⟨by decide, by decide⟩,
    (presence_last_status_wins Store.empty [⟨1, ⟨7⟩, "offline"⟩] [⟨1, ⟨7⟩, ""⟩, ⟨1, ⟨8⟩, "offline"⟩]
      ⟨1, ⟨7⟩, "idle"⟩ (by decide) (by decide)).2.1 (by decide)⟩

/-- C2 as stated fails: the last (and only) presence update of user 7 in guild 1
carries the empty status, which is a status other than "offline", and the user is
not in the online-set of the guild afterwards. -/
theorem presence_empty_status_counterexample :
    (⟨1, ⟨7⟩, ""⟩ : PresenceUpdate).Status ≠ "offline" ∧
    FormatInt 7 ∉ online (run ([(⟨1, ⟨7⟩, ""⟩ : PresenceUpdate)].map Event.PresenceUpdate)
      Store.empty) 1 := by
  constructor
  · decide
  · simp [run, handle, HandlePresenceUpdate, online, Store.empty]

/-! ## Messages -/

/-- C5: a message-created event whose channel is not in the state, or is private, or
whose guild configuration cannot be retrieved, or whose channel is among the
excluded channels of that configuration, leaves the store exactly as it was, whatever
the store would have answered; the handler returns with its log lines only. -/
theorem HandleMessageCreate_skips (env : Env) (ok : Nat → Bool) (now : Int) (m : Message)
    (s : Store)
    (h : env.Channel m.ChannelID = none ∨
      ∃ channel, env.Channel m.ChannelID = some channel ∧
        (channel.IsPrivate = true ∨
          (∃ e, env.GetConfig channel.Guild.ID = Except.error e) ∨
          ∃ config, env.GetConfig channel.Guild.ID = Except.ok config ∧
            channel.ID ∈ config.ParsedChannels)) :
    (HandleMessageCreate env ok now m s).1 = s := by
  unfold HandleMessageCreate
  rcases h with h | ⟨channel, hch, h⟩
  · rw [h]
  · rw [hch]
    simp only
    by_cases hp : channel.IsPrivate = true
    · rw [if_pos hp]
    · rw [if_neg hp]
      rcases h with h | ⟨e, he⟩ | ⟨config, hc, hmem⟩
      · exact absurd h hp
      · rw [he]
      · rw [hc]
        simp only
        have : ContainsInt64Slice config.ParsedChannels channel.ID = true := by
          unfold ContainsInt64Slice
          rw [List.any_eq_true]
          exact ⟨channel.ID, hmem, by simp⟩
        rw [if_pos this]

theorem HandleMessageCreate_skips_witness :
    ((⟨fun _ => some ⟨5, ⟨1⟩, false⟩, fun _ => Except.error "no config"⟩ : Env).Channel
        (⟨9, 5, ⟨7⟩⟩ : Message).ChannelID = none ∨
      ∃ channel, (⟨fun _ => some ⟨5, ⟨1⟩, false⟩, fun _ => Except.error "no config"⟩ : Env).Channel
          (⟨9, 5, ⟨7⟩⟩ : Message).ChannelID = some channel ∧
        (channel.IsPrivate = true ∨
          (∃ e, (⟨fun _ => some ⟨5, ⟨1⟩, false⟩, fun _ => Except.error "no config"⟩ : Env).GetConfig
            channel.Guild.ID = Except.error e) ∨
          ∃ config, (⟨fun _ => some ⟨5, ⟨1⟩, false⟩,
              fun _ => Except.error "no config"⟩ : Env).GetConfig
            channel.Guild.ID = Except.ok config ∧ channel.ID ∈ config.ParsedChannels)) ∧
    (HandleMessageCreate ⟨fun _ => some ⟨5, ⟨1⟩, false⟩, fun _ => Except.error "no config"⟩
      allOk 100 ⟨9, 5, ⟨7⟩⟩ Store.empty).1 = Store.empty :=
  ⟨Or.inr ⟨⟨5, ⟨1⟩, false⟩, rfl, Or.inr (Or.inl ⟨"no config", rfl⟩)⟩,
    HandleMessageCreate_skips ⟨fun _ => some ⟨5, ⟨1⟩, false⟩, fun _ => Except.error "no config"⟩
      allOk 100 ⟨9, 5, ⟨7⟩⟩ Store.empty
      (Or.inr ⟨⟨5, ⟨1⟩, false⟩, rfl, Or.inr (Or.inl ⟨"no config", rfl⟩)⟩)⟩

/-- C6, as the handlers implement it: a message in a channel that is in the state,
not private and not excluded, with a configuration that could be retrieved, leaves
the guild in `serverstats_active_guilds` whenever the SADD succeeds, whether or not
the ZADD did; `HandleMemberAdd` and `HandleMemberRemove` leave every set of the
store, the active set included, as it was. -/
theorem HandleMessageCreate_marks_active (env : Env) (ok : Nat → Bool) (now : Int)
    (m : Message) (s : Store) (channel : ChannelState) (config : ServerStatsConfig)
    (hch : env.Channel m.ChannelID = some channel) (hp : channel.IsPrivate = false)
    (hc : env.GetConfig channel.Guild.ID = Except.ok config)
    (hex : channel.ID ∉ config.ParsedChannels) (hok : ok 1 = true) :
    FormatInt channel.Guild.ID ∈ activeGuilds (HandleMessageCreate env ok now m s).1 ∧
    (∀ (ok2 : Nat → Bool) (t : Int) (g : Member) (c : Store),
      (HandleMemberAdd ok2 t g c).1.sets = c.sets ∧
      (HandleMemberRemove ok2 t g c).1.sets = c.sets) := by
  constructor
  · unfold HandleMessageCreate
    rw [hch]
    simp only
    rw [if_neg (by simp [hp]), hc]
    simp only
    have : ¬ ContainsInt64Slice config.ParsedChannels channel.ID = true := by
      unfold ContainsInt64Slice
      rw [List.any_eq_true]
      rintro ⟨x, hx, hxe⟩
      have : x = channel.ID := by simpa using hxe
      exact hex (this ▸ hx)
    rw [if_neg this]
    simp only [MarkGuildAsToBeChecked, Cmd, hok, if_true, activeGuilds, Store.exec,
      Function.update_same]
    exact Finset.mem_insert_self _ _
  · intro ok2 t g c
    constructor
    · unfold HandleMemberAdd Cmd
      cases ok2 0 <;> cases ok2 1 <;> simp [Store.exec]
    · unfold HandleMemberRemove Cmd
      cases ok2 0 <;> cases ok2 1 <;> simp [Store.exec]

theorem HandleMessageCreate_marks_active_witness :
    ((⟨fun _ => some ⟨5, ⟨1⟩, false⟩, fun _ => Except.ok ⟨[6]⟩⟩ : Env).Channel
        (⟨9, 5, ⟨7⟩⟩ : Message).ChannelID = some ⟨5, ⟨1⟩, false⟩ ∧
      (⟨5, ⟨1⟩, false⟩ : ChannelState).IsPrivate = false ∧
      (⟨fun _ => some ⟨5, ⟨1⟩, false⟩, fun _ => Except.ok ⟨[6]⟩⟩ : Env).GetConfig
        (⟨5, ⟨1⟩, false⟩ : ChannelState).Guild.ID = Except.ok ⟨[6]⟩ ∧
      (⟨5, ⟨1⟩, false⟩ : ChannelState).ID ∉ (⟨[6]⟩ : ServerStatsConfig).ParsedChannels ∧
      allOk 1 = true) ∧
    FormatInt (⟨5, ⟨1⟩, false⟩ : ChannelState).Guild.ID ∈
      activeGuilds (HandleMessageCreate ⟨fun _ => some ⟨5, ⟨1⟩, false⟩, fun _ => Except.ok ⟨[6]⟩⟩
        allOk 100 ⟨9, 5, ⟨7⟩⟩ Store.empty).1 :=
  ⟨⟨rfl, rfl, rfl, by decide, rfl⟩,
    (HandleMessageCreate_marks_active ⟨fun _ => some ⟨5, ⟨1⟩, false⟩, fun _ => Except.ok ⟨[6]⟩⟩
      allOk 100 ⟨9, 5, ⟨7⟩⟩ Store.empty ⟨5, ⟨1⟩, false⟩ ⟨[6]⟩ rfl rfl rfl (by decide) rfl).1⟩

/-- C6 as stated fails for a member join: `HandleMemberAdd` writes the join of user 7
to the store of guild 1 (the joined set and the counter), every command succeeding,
and the guild is not in `serverstats_active_guilds` afterwards. -/
theorem HandleMemberAdd_not_marked_counterexample :
    joined (HandleMemberAdd allOk 100 ⟨1, ⟨7⟩⟩ Store.empty).1 1 = [("7", 100)] ∧
    numMembers (HandleMemberAdd allOk 100 ⟨1, ⟨7⟩⟩ Store.empty).1 1 = some 1 ∧
    FormatInt 1 ∉ activeGuilds (HandleMemberAdd allOk 100 ⟨1, ⟨7⟩⟩ Store.empty).1 := by
  refine ⟨?_, ?_, ?_⟩
  · simp [HandleMemberAdd, Cmd, allOk, joined, Store.exec, Store.empty, zadd]
    decide
  · simp [HandleMemberAdd, Cmd, allOk, numMembers, Store.exec, Store.empty]
  · simp [HandleMemberAdd, Cmd, allOk, activeGuilds, Store.exec, Store.empty]

/-! ## Member joins and leaves -/

/-- C7: the two store operations of `HandleMemberAdd`, and of `HandleMemberRemove`,
do not depend on each other. Whatever the outcome of the ZADD, the counter is moved
by exactly one when the INCR (DECR) succeeds and is untouched when it fails; whatever
the outcome of the INCR (DECR), the timestamped entry of the user is in the joined
(left) set when the ZADD succeeds and the set is untouched when it fails. The handler
returns in every case, with one log line per failed command. -/
theorem member_handlers_independent (ok : Nat → Bool) (now : Int) (g : Member) (s : Store) :
    (numMembers (HandleMemberAdd ok now g s).1 g.GuildID =
      if ok 1 then some ((numMembers s g.GuildID).getD 0 + 1) else numMembers s g.GuildID) ∧
    (joined (HandleMemberAdd ok now g s).1 g.GuildID =
      if ok 0 then zadd (joined s g.GuildID) now (FormatInt g.User.ID)
      else joined s g.GuildID) ∧
    (ok 0 = true → (FormatInt g.User.ID, now) ∈ joined (HandleMemberAdd ok now g s).1 g.GuildID) ∧
    ((HandleMemberAdd ok now g s).2 =
      (if ok 0 then [] else ["Failed adding member to stats"]) ++
        (if ok 1 then [] else ["Failed Increasing members"])) ∧
    (numMembers (HandleMemberRemove ok now g s).1 g.GuildID =
      if ok 1 then some ((numMembers s g.GuildID).getD 0 - 1) else numMembers s g.GuildID) ∧
    (left (HandleMemberRemove ok now g s).1 g.GuildID =
      if ok 0 then zadd (left s g.GuildID) now (FormatInt g.User.ID)
      else left s g.GuildID) ∧
    (ok 0 = true → (FormatInt g.User.ID, now) ∈ left (HandleMemberRemove ok now g s).1 g.GuildID) ∧
    ((HandleMemberRemove ok now g s).2 =
      (if ok 0 then [] else ["Failed adding member to stats"]) ++
        (if ok 1 then [] else ["Failed decreasing members"])) := by
  refine ⟨?_, ?_, ?_, ?_, ?_, ?_, ?_, ?_⟩
  · unfold HandleMemberAdd Cmd numMembers
    cases ok 0 <;> cases ok 1 <;> simp [Store.exec]
  · unfold HandleMemberAdd Cmd joined
    cases ok 0 <;> cases ok 1 <;> simp [Store.exec]
  · intro h
    unfold HandleMemberAdd Cmd joined
    rw [h]
    cases ok 1 <;> simp [Store.exec, zadd]
  · unfold HandleMemberAdd Cmd
    cases ok 0 <;> cases ok 1 <;> simp
  · unfold HandleMemberRemove Cmd numMembers
    cases ok 0 <;> cases ok 1 <;> simp [Store.exec]
  · unfold HandleMemberRemove Cmd left
    cases ok 0 <;> cases ok 1 <;> simp [Store.exec]
  · intro h
    unfold HandleMemberRemove Cmd left
    rw [h]
    cases ok 1 <;> simp [Store.exec, zadd]
  · unfold HandleMemberRemove Cmd
    cases ok 0 <;> cases ok 1 <;> simp

theorem mem_zadd_self (z : List (String × Int)) (t sc : Int) (m : String) :
    (m, sc) ∈ zadd z t m ↔ sc = t := by
  simp [zadd]

theorem mem_zadd_other (z : List (String × Int)) (t sc : Int) (m x : String) (h : x ≠ m) :
    (x, sc) ∈ zadd z t m ↔ (x, sc) ∈ z := by
  simp [zadd, h]

theorem zadd_keys (z : List (String × Int)) (t : Int) (m : String) :
    (zadd z t m).map Prod.fst = m :: (z.map Prod.fst).filter (fun k => k ≠ m) := by
  simp only [zadd, List.map_cons, List.filter_map]
  rfl

theorem zadd_keys_nodup (z : List (String × Int)) (t : Int) (m : String)
    (h : (z.map Prod.fst).Nodup) : ((zadd z t m).map Prod.fst).Nodup := by
  rw [zadd_keys, List.nodup_cons]
  exact ⟨by simp [List.mem_filter], h.filter _⟩

theorem zadd_keys_toFinset (z : List (String × Int)) (t : Int) (m : String) :
    ((zadd z t m).map Prod.fst).toFinset = insert m (z.map Prod.fst).toFinset := by
  rw [zadd_keys]
  ext x
  simp only [List.toFinset_cons, Finset.mem_insert, List.mem_toFinset, List.mem_filter]
  by_cases hx : x = m <;> simp [hx]

theorem HandleMemberAdd_joined (now : Int) (m : Member) (s : Store) (g : Int) :
    joined (HandleMemberAdd allOk now m s).1 g =
      if m.GuildID = g then zadd (joined s g) now (FormatInt m.User.ID) else joined s g := by
  simp only [HandleMemberAdd, Cmd, allOk, if_true, joined, Store.exec]
  by_cases h : m.GuildID = g
  · rw [if_pos h, h, Function.update_same]
  · rw [if_neg h, Function.update_noteq]
    exact fun hk => h ((joinedKey_inj g m.GuildID).mp hk).symm

theorem joinEvents_cons (x : Int × Member) (evs : List (Int × Member)) :
    joinEvents (x :: evs) = Event.GuildMemberAdd x.1 x.2 :: joinEvents evs := rfl

theorem joinEvents_append (xs ys : List (Int × Member)) :
    joinEvents (xs ++ ys) = joinEvents xs ++ joinEvents ys := by
  simp [joinEvents]

/-- The members of the joined set after a run of joins: those it had, and the users
who joined the guild. No member is listed twice. -/
theorem joined_keys_run (evs : List (Int × Member)) (s : Store) (g : Int)
    (h : ((joined s g).map Prod.fst).Nodup) :
    ((joined (run (joinEvents evs) s) g).map Prod.fst).Nodup ∧
    ((joined (run (joinEvents evs) s) g).map Prod.fst).toFinset =
      ((joined s g).map Prod.fst).toFinset ∪
        (((evs.filter (fun x => x.2.GuildID = g)).map (fun x => x.2.User.ID)).map
          FormatInt).toFinset := by
  induction evs generalizing s with
  | nil => simp [joinEvents, run, h]
  | cons x evs ih =>
    rw [joinEvents_cons, run_cons]
    have hj := HandleMemberAdd_joined x.1 x.2 s g
    by_cases hg : x.2.GuildID = g
    · rw [if_pos hg] at hj
      have hn : ((joined (handle allOk (Event.GuildMemberAdd x.1 x.2) s).1 g).map
          Prod.fst).Nodup := by
        show ((joined (HandleMemberAdd allOk x.1 x.2 s).1 g).map Prod.fst).Nodup
        rw [hj]
        exact zadd_keys_nodup _ _ _ h
      obtain ⟨h1, h2⟩ := ih _ hn
      refine ⟨h1, ?_⟩
      rw [h2]
      have : joined (handle allOk (Event.GuildMemberAdd x.1 x.2) s).1 g =
          zadd (joined s g) x.1 (FormatInt x.2.User.ID) := hj
      rw [this, zadd_keys_toFinset]
      ext y
      simp [List.filter_cons, hg]
    · rw [if_neg hg] at hj
      have hsame : joined (handle allOk (Event.GuildMemberAdd x.1 x.2) s).1 g = joined s g := hj
      have hn : ((joined (handle allOk (Event.GuildMemberAdd x.1 x.2) s).1 g).map
          Prod.fst).Nodup := by
        rw [hsame]; exact h
      obtain ⟨h1, h2⟩ := ih _ hn
      refine ⟨h1, ?_⟩
      rw [h2, hsame]
      simp [List.filter_cons, hg]

theorem numMembers_run_joins (evs : List (Int × Member)) (s : Store) (g : Int) :
    (numMembers (run (joinEvents evs) s) g).getD 0 =
      (numMembers s g).getD 0 + ((evs.filter (fun x => x.2.GuildID = g)).length : Int) := by
  induction evs generalizing s with
  | nil => simp [joinEvents, run]
  | cons x evs ih =>
    rw [joinEvents_cons, run_cons, ih]
    have hc : numMembers (handle allOk (Event.GuildMemberAdd x.1 x.2) s).1 g = _ :=
      HandleMemberAdd_counters x.1 x.2 s g
    rw [hc]
    by_cases hg : x.2.GuildID = g
    · simp [List.filter_cons, hg]
      ring
    · simp [List.filter_cons, hg]

theorem joined_run_other (post : List (Int × Member)) (s : Store) (g u : Int) (sc : Int)
    (h : ∀ x ∈ post, x.2.GuildID = g → x.2.User.ID ≠ u) :
    ((FormatInt u, sc) ∈ joined (run (joinEvents post) s) g ↔ (FormatInt u, sc) ∈ joined s g) := by
  induction post generalizing s with
  | nil => rfl
  | cons x post ih =>
    rw [joinEvents_cons, run_cons, ih _ (fun y hy => h y (List.mem_cons_of_mem _ hy))]
    have hj : joined (handle allOk (Event.GuildMemberAdd x.1 x.2) s).1 g = _ :=
      HandleMemberAdd_joined x.1 x.2 s g
    rw [hj]
    by_cases hg : x.2.GuildID = g
    · rw [if_pos hg]
      apply mem_zadd_other
      exact fun hf => h x (List.mem_cons_self _ _) hg (FormatInt_injective hf).symm
    · rw [if_neg hg]

/-- C10: after any sequence of joins handled from a store in which the joined set of
the guild is empty (every command succeeding), that set has one entry per distinct
user who joined the guild, not one per event; the entry of a user carries the time
of that user's last join; and the member counter has moved by the number of join
events of the guild. -/
theorem joined_counts_distinct_users (s : Store) (g : Int) (evs : List (Int × Member))
    (h0 : joined s g = []) :
    (joined (run (joinEvents evs) s) g).length =
      ((evs.filter (fun x => x.2.GuildID = g)).map (fun x => x.2.User.ID)).dedup.length ∧
    (numMembers (run (joinEvents evs) s) g).getD 0 =
      (numMembers s g).getD 0 + ((evs.filter (fun x => x.2.GuildID = g)).length : Int) ∧
    (∀ (pre post : List (Int × Member)) (t : Int) (m : Member),
      evs = pre ++ (t, m) :: post → m.GuildID = g →
      (∀ x ∈ post, x.2.GuildID = g → x.2.User.ID ≠ m.User.ID) →
      ∀ sc : Int, (FormatInt m.User.ID, sc) ∈ joined (run (joinEvents evs) s) g ↔ sc = t) := by
  refine ⟨?_, numMembers_run_joins evs s g, ?_⟩
  · obtain ⟨hn, hk⟩ := joined_keys_run evs s g (by rw [h0]; exact List.nodup_nil)
    rw [h0] at hk
    have hl : (joined (run (joinEvents evs) s) g).length =
        ((joined (run (joinEvents evs) s) g).map Prod.fst).toFinset.card := by
      rw [List.toFinset_card_of_nodup hn, List.length_map]
    rw [hl, hk, List.map_nil, List.toFinset_nil, Finset.empty_union, List.card_toFinset,
      List.dedup_map_of_injective FormatInt_injective, List.length_map]
  · intro pre post t m hevs hg hpost sc
    rw [hevs, joinEvents_append, run_append, joinEvents_cons, run_cons,
      joined_run_other post _ g m.User.ID sc hpost]
    have hj : joined (handle allOk (Event.GuildMemberAdd t m) (run (joinEvents pre) s)).1 g = _ :=
      HandleMemberAdd_joined t m (run (joinEvents pre) s) g
    rw [hj, if_pos hg]
    exact mem_zadd_self _ _ _ _

theorem joined_counts_distinct_users_witness :
    joined Store.empty 1 = [] ∧
    (joined (run (joinEvents [(100, ⟨1, ⟨7⟩⟩), (105, ⟨1, ⟨8⟩⟩), (110, ⟨1, ⟨7⟩⟩)])
      Store.empty) 1).length = 2 ∧
    (numMembers (run (joinEvents [(100, ⟨1, ⟨7⟩⟩), (105, ⟨1, ⟨8⟩⟩), (110, ⟨1, ⟨7⟩⟩)])
      Store.empty) 1).getD 0 = 3 :=
  ⟨rfl,
    (joined_counts_distinct_users Store.empty 1
      [(100, ⟨1, ⟨7⟩⟩), (105, ⟨1, ⟨8⟩⟩), (110, ⟨1, ⟨7⟩⟩)] rfl).1,
    (joined_counts_distinct_users Store.empty 1
      [(100, ⟨1, ⟨7⟩⟩), (105, ⟨1, ⟨8⟩⟩), (110, ⟨1, ⟨7⟩⟩)] rfl).2.1⟩

/-! ## The value stored for a message -/

theorem ParseUint_loop_cons (c : Char) (cs : List Char) (n : Nat) :
    ParseUint_loop (c :: cs) n =
      if '0' ≤ c ∧ c ≤ '9' then
        if (2 ^ 64 - 1) / 10 + 1 ≤ n then Except.error NumError.ErrRange
        else if 2 ^ 64 ≤ n * 10 + (c.toNat - 48) then Except.error NumError.ErrRange
        else ParseUint_loop cs (n * 10 + (c.toNat - 48))
      else Except.error NumError.ErrSyntax := rfl

theorem ParseUint_loop_append (l : List Char) (c : Char) (n : Nat) :
    ParseUint_loop (l ++ [c]) n =
      match ParseUint_loop l n with
      | Except.ok m => ParseUint_loop [c] m
      | Except.error e => Except.error e := by
  induction l generalizing n with
  | nil => rfl
  | cons x l ih =>
    rw [List.cons_append, ParseUint_loop_cons, ParseUint_loop_cons x l]
    by_cases hx : '0' ≤ x ∧ x ≤ '9'
    · rw [if_pos hx, if_pos hx]
      by_cases h1 : (2 ^ 64 - 1) / 10 + 1 ≤ n
      · rw [if_pos h1, if_pos h1]
      · rw [if_neg h1, if_neg h1]
        by_cases h2 : 2 ^ 64 ≤ n * 10 + (x.toNat - 48)
        · rw [if_pos h2, if_pos h2]
        · rw [if_neg h2, if_neg h2, ih]
    · rw [if_neg hx, if_neg hx]

theorem ParseUint_loop_digit (d n : Nat) (hd : d < 10) (hn : n * 10 + d < 2 ^ 64) :
    ParseUint_loop [digitChar d] n = Except.ok (n * 10 + d) := by
  have htn : (digitChar d).toNat - 48 = d := by rw [digitChar_toNat d hd]; omega
  have h1 : ¬ ((2 ^ 64 - 1) / 10 + 1 ≤ n) := by omega
  rw [ParseUint_loop_cons, if_pos (digitChar_isDigit d hd), if_neg h1, htn, if_neg (by omega)]
  rfl

/-- `ParseUint` reads back what `formatBits` wrote, for every 64-bit magnitude. -/
theorem ParseUint_loop_formatBits (fuel u : Nat) (h : u < fuel) (h64 : u < 2 ^ 64) :
    ParseUint_loop (formatBits fuel u []) 0 = Except.ok u := by
  induction fuel generalizing u with
  | zero => omega
  | succ fuel ih =>
    rw [formatBits_succ]
    by_cases h10 : 10 ≤ u
    · rw [if_pos h10, ParseUint_loop_append, ih (u / 10) (by omega) (by omega)]
      simp only
      rw [ParseUint_loop_digit (u % 10) (u / 10) (by omega) (by omega)]
      congr 1
      omega
    · rw [if_neg h10]
      have := ParseUint_loop_digit u 0 (by omega) (by omega)
      simpa using this

theorem ParseUint_formatBits (u : Nat) (h64 : u < 2 ^ 64) :
    ParseUint (formatBits (u + 1) u []) = Except.ok u := by
  have hne := formatBits_ne_nil (u + 1) u (Nat.lt_succ_self u)
  have := ParseUint_loop_formatBits (u + 1) u (Nat.lt_succ_self u) h64
  unfold ParseUint
  cases hl : formatBits (u + 1) u [] with
  | nil => exact absurd hl hne
  | cons c cs => rw [hl] at this; exact this

/-- `ParseInt` reads back what `FormatInt` wrote, for every 64-bit signed integer. -/
theorem ParseInt_FormatInt (i : Int) (hlo : -2 ^ 63 ≤ i) (hhi : i < 2 ^ 63) :
    ParseInt (FormatInt i) = Except.ok i := by
  have hne := formatBits_ne_nil (i.natAbs + 1) i.natAbs (Nat.lt_succ_self _)
  have hdig := formatBits_digit (i.natAbs + 1) i.natAbs (Nat.lt_succ_self _)
  have hp := ParseUint_formatBits i.natAbs (by omega)
  unfold FormatInt ParseInt
  by_cases hneg : i < 0
  · rw [if_pos hneg]
    simp only [decide_True, or_true, if_true, hp, Bool.not_true, Bool.false_and,
      Bool.true_and, Bool.false_eq_true, if_false]
    have h2 : ¬ (2 ^ 63 < i.natAbs) := by omega
    simp only [h2, decide_False, Bool.false_eq_true, if_false]
    congr 1
    omega
  · rw [if_neg hneg]
    cases hl : formatBits (i.natAbs + 1) i.natAbs [] with
    | nil => exact absurd hl hne
    | cons c cs =>
      obtain ⟨d, hd, hcd⟩ := hdig c (by rw [hl]; simp)
      have hm : c ≠ '-' := by rw [hcd]; exact digitChar_ne_minus d hd
      have hpl : c ≠ '+' := by rw [hcd]; exact digitChar_ne_plus d hd
      rw [hl] at hp
      simp only [hm, hpl, decide_False, or_self, if_false, hp, Bool.not_false, Bool.true_and,
        Bool.false_and, Bool.false_eq_true]
      have h2 : ¬ (2 ^ 63 ≤ i.natAbs) := by omega
      simp only [h2, decide_False, Bool.false_eq_true, if_false]
      congr 1
      omega

theorem splitChars_cons (sep c : Char) (cs : List Char) :
    splitChars sep (c :: cs) =
      if c = sep then [] :: splitChars sep cs
      else
        match splitChars sep cs with
        | [] => [[c]]
        | f :: fs => (c :: f) :: fs := rfl

theorem splitChars_no_sep (sep : Char) (l : List Char) (h : sep ∉ l) :
    splitChars sep l = [l] := by
  induction l with
  | nil => rfl
  | cons c cs ih =>
    have hc : c ≠ sep := fun hc => h (by rw [hc]; exact List.mem_cons_self _ _)
    have hcs : sep ∉ cs := fun hx => h (List.mem_cons_of_mem _ hx)
    rw [splitChars_cons, if_neg hc, ih hcs]

theorem splitChars_append_sep (sep : Char) (l rest : List Char) (h : sep ∉ l) :
    splitChars sep (l ++ sep :: rest) = l :: splitChars sep rest := by
  induction l with
  | nil => rw [List.nil_append, splitChars_cons, if_pos rfl]
  | cons c cs ih =>
    have hc : c ≠ sep := fun hc => h (by rw [hc]; exact List.mem_cons_self _ _)
    have hcs : sep ∉ cs := fun hx => h (List.mem_cons_of_mem _ hx)
    rw [List.cons_append, splitChars_cons, if_neg hc, ih hcs]

theorem Split_messageValue (c m a : Int) :
    Split (messageValue c m a) ':' = [StrID c, StrID m, StrID a] := by
  have hd : (messageValue c m a).data =
      (StrID c).data ++ ':' :: ((StrID m).data ++ ':' :: (StrID a).data) := by
    simp [messageValue, String.data_append]
  have hcol : ∀ i : Int, ':' ∉ (StrID i).data := FormatInt_no_colon
  unfold Split
  rw [hd, splitChars_append_sep _ _ _ (hcol c), splitChars_append_sep _ _ _ (hcol m),
    splitChars_no_sep _ _ (hcol a)]
  rfl

/-- C9: the value stored for a message splits at ":" into exactly three fields, the
decimal forms of the channel, message and author IDs; for 64-bit signed IDs each
field parses back to its ID; and two ID triples with the same stored value are the
same triple. -/
theorem messageValue_decomposable (c m a : Int)
    (hc : -2 ^ 63 ≤ c ∧ c < 2 ^ 63) (hm : -2 ^ 63 ≤ m ∧ m < 2 ^ 63)
    (ha : -2 ^ 63 ≤ a ∧ a < 2 ^ 63) :
    Split (messageValue c m a) ':' = [StrID c, StrID m, StrID a] ∧
    (Split (messageValue c m a) ':').map ParseInt = [Except.ok c, Except.ok m, Except.ok a] ∧
    ∀ c2 m2 a2 : Int, messageValue c2 m2 a2 = messageValue c m a →
      c2 = c ∧ m2 = m ∧ a2 = a := by
  refine ⟨Split_messageValue c m a, ?_, ?_⟩
  · rw [Split_messageValue]
    simp only [List.map_cons, List.map_nil, StrID, ParseInt_FormatInt c hc.1 hc.2,
      ParseInt_FormatInt m hm.1 hm.2, ParseInt_FormatInt a ha.1 ha.2]
  · intro c2 m2 a2 h
    have h2 := congrArg (fun v => Split v ':') h
    simp only [Split_messageValue] at h2
    simp only [List.cons.injEq, and_true] at h2
    exact ⟨StrID_injective h2.1, StrID_injective h2.2.1, StrID_injective h2.2.2⟩

theorem messageValue_decomposable_witness :
    ((-2 ^ 63 ≤ (-9223372036854775808 : Int) ∧ (-9223372036854775808 : Int) < 2 ^ 63) ∧
      (-2 ^ 63 ≤ (9223372036854775807 : Int) ∧ (9223372036854775807 : Int) < 2 ^ 63) ∧
      (-2 ^ 63 ≤ (0 : Int) ∧ (0 : Int) < 2 ^ 63)) ∧
    Split (messageValue (-9223372036854775808) 9223372036854775807 0) ':' =
      ["-9223372036854775808", "9223372036854775807", "0"] ∧
    (Split (messageValue (-9223372036854775808) 9223372036854775807 0) ':').map ParseInt =
      [Except.ok (-9223372036854775808), Except.ok 9223372036854775807, Except.ok 0] :=
  ⟨⟨by decide, by decide, by decide⟩,
    (messageValue_decomposable (-9223372036854775808) 9223372036854775807 0
      (by decide) (by decide) (by decide)).1.trans (by decide),
    (messageValue_decomposable (-9223372036854775808) 9223372036854775807 0
      (by decide) (by decide) (by decide)).2.1⟩

end Serverstats
